import Mathlib

/-!
Verification of the configuration-resolution core of `stipsan/microbundle`
(`src/index.js`): entry resolution, per-format output-path planning,
external classification, globals derivation, shebang preservation,
name-cache loading, format ordering for one-shot builds, and the watch-mode
watcher set.

All string operations are defined structurally over `String.data` (lists of
characters) so that every definition evaluates by kernel reduction on
concrete inputs.  Paths are modelled with POSIX separators, matching the
Node `path` functions at the call sites exercised here.
-/

namespace Microbundle

/-- Split a character list at every occurrence of the separator character,
so that `splitOnChar '/' "a/b".data = ["a".data, "b".data]`.  Used to model
Node's `path.basename` / `path.dirname` and the comma splitting of CLI
mapping arguments. -/
def splitOnChar (sep : Char) : List Char → List (List Char)
  | [] => [[]]
  | c :: cs =>
    let r := splitOnChar sep cs
    if c = sep then [] :: r
    else
      match r with
      | [] => [[c]]
      | h :: t => (c :: h) :: t

/-- Rejoin path segments with `/` separators (inverse of `splitOnChar '/'`). -/
def joinSegs : List (List Char) → List Char
  | [] => []
  | [x] => x
  | x :: y :: t => x ++ '/' :: joinSegs (y :: t)

/-- The `/`-separated segments of a path. -/
def pathSegs (s : String) : List (List Char) := splitOnChar '/' s.data

/-- Node `path.basename`: the last `/`-separated segment. -/
def basename (s : String) : String := ⟨(pathSegs s).getLastD []⟩

/-- Node `path.dirname`: all but the last segment; `"."` when there is no
separator and `"/"` when only the root remains. -/
def dirname (s : String) : String :=
  match (pathSegs s).dropLast with
  | [] => "."
  | [[]] => "/"
  | segs => ⟨joinSegs segs⟩

/-- `strStartsWith p s` is true when `p` is a prefix of `s`. -/
def strStartsWith (p s : String) : Bool := p.data.isPrefixOf s.data

/-- `strEndsWith s p` is true when `s` ends with `p`. -/
def strEndsWith (s p : String) : Bool := p.data.isSuffixOf s.data

/-- Node `path.resolve(dir, p)` at the call sites used here: an absolute
second argument wins, otherwise it is joined onto `dir`.  (`.`/`..`
normalisation is not modelled; no input in this development contains
such segments.) -/
def resolvePath (dir p : String) : String :=
  if strStartsWith "/" p then p else dir ++ "/" ++ p

/-- Drop the last `n` characters of a string. -/
def strDropRight (s : String) (n : Nat) : String :=
  ⟨s.data.take (s.data.length - n)⟩

/-- JS `s.replace(/^[^.]+/, '')` (src/index.js line 244): remove the maximal
leading run of non-`.` characters.  When `s` starts with `.` the regex does
not match and `s` is unchanged, which `dropWhile` also yields. -/
def stripLeadingName (s : String) : String :=
  ⟨s.data.dropWhile (fun c => !(c == '.'))⟩

/-- src/index.js lines 241-246: rewrite the template `filename`'s base name to
`name`, keeping the template's own dotted suffix. -/
def replaceName (filename name : String) : String :=
  resolvePath (dirname filename) (name ++ stripLeadingName (basename filename))

/-- The optional format tags of the regexes in src/index.js lines 258 and
263-266: `(\.(umd|cjs|es|m))?`. -/
def formatTags : List String := ["", ".umd", ".cjs", ".es", ".m"]

/-- The extension alternatives `\.(mjs|[tj]sx?)` of the same regexes:
`.mjs`, `.js`, `.jsx`, `.ts`, `.tsx`. -/
def formatExts : List String := [".mjs", ".js", ".jsx", ".ts", ".tsx"]

/-- All suffixes the pattern `(\.(umd|cjs|es|m))?\.(mjs|[tj]sx?)$` can match. -/
def tagExtSuffixes : List String :=
  (formatTags.map (fun t => formatExts.map (fun e => t ++ e))).flatten

/-- The longest element of `tagExtSuffixes` that is a suffix of `s`, if any.
JS regex matching is leftmost-first; for a suffix-anchored pattern the
leftmost match start is exactly the longest matching suffix. -/
def longestMatchingSuffix (s : String) : Option String :=
  tagExtSuffixes.foldl
    (fun acc suf =>
      if strEndsWith s suf then
        match acc with
        | none => some suf
        | some b => if b.data.length < suf.data.length then some suf else acc
      else acc)
    none

/-- src/index.js lines 263-266:
`mainNoExtension.replace(/(\.(umd|cjs|es|m))?\.(mjs|[tj]sx?)$/, '')`. -/
def stripFormatExt (s : String) : String :=
  match longestMatchingSuffix s with
  | none => s
  | some suf => strDropRight s suf.data.length

/-- src/index.js line 258:
`entry.match(/([\\/])index(\.(umd|cjs|es|m))?\.(mjs|[tj]sx?)$/)`. -/
def isIndexEntry (entry : String) : Bool :=
  ["/", "\\"].any fun sep =>
    formatTags.any fun tag =>
      formatExts.any fun ext => strEndsWith entry (sep ++ "index" ++ tag ++ ext)

/-- The module formats microbundle emits (spec §3 FormatTarget). -/
inductive Format
  | cjs
  | es
  | umd
  | modern
  deriving DecidableEq

/-- The format's name as a string, as it appears in the comma-separated
`--format` CLI value. -/
def Format.str : Format → String
  | .cjs => "cjs"
  | .es => "es"
  | .umd => "umd"
  | .modern => "modern"

/-- The manifest fields `getMain` reads (src/index.js lines 268-284).
`none` models an absent field.  `synEsmodules` models
`pkg.syntax && pkg.syntax.esmodules`. -/
structure Pkg where
  module : Option String := none
  jsnextMain : Option String := none
  synEsmodules : Option String := none
  esmodule : Option String := none
  cjsMain : Option String := none
  umdMain : Option String := none

/-- JS truthiness of an optional string field: absent and `""` are falsy. -/
def strTruthy : Option String → Bool
  | none => false
  | some s => !(s == "")

/-- JS `v || d` for an optional string field. -/
def orTruthy : Option String → String → String
  | some s, d => if s == "" then d else s
  | none, d => d

/-- `pat` occurs as a contiguous substring of `l`. -/
def listHasInfix (pat : List Char) : List Char → Bool
  | [] => pat.isEmpty
  | c :: cs => pat.isPrefixOf (c :: cs) || listHasInfix pat cs

/-- JS `s.match(pat)` truthiness for the plain-text pattern `pat`. -/
def hasSubstr (pat s : String) : Bool := listHasInfix pat.data s.data

/-- src/index.js lines 256-266: the output path with the entry's base name
substituted in and any trailing format tag and extension stripped. -/
def mainNoExtOf (output entry : String) : String :=
  stripFormatExt
    (resolvePath (dirname output)
      (basename (if isIndexEntry entry then output else entry)))

/-- src/index.js lines 248-287 (`getMain`): the absolute output path planned
for `entry` in format `format`.  `pkgMain` is the truthiness of
`options['pkg-main']`; when falsy the single resolved `options.output` path
is returned for every format. -/
def getMain (pkgMain : Bool) (output : String) (pkg : Pkg) (entry : String)
    (format : Format) : String :=
  if !pkgMain then output
  else
    let mainNoExtension := mainNoExtOf output entry
    let esMain := replaceName
      (if strTruthy pkg.module && !hasSubstr "src/" (pkg.module.getD "") then
        pkg.module.getD ""
      else orTruthy pkg.jsnextMain "x.esm.js")
      mainNoExtension
    let modernMain := replaceName
      (if strTruthy pkg.synEsmodules then pkg.synEsmodules.getD ""
      else orTruthy pkg.esmodule "x.modern.js")
      mainNoExtension
    let cjsOut := replaceName (orTruthy pkg.cjsMain "x.js") mainNoExtension
    let umdOut := replaceName (orTruthy pkg.umdMain "x.umd.js") mainNoExtension
    match format with
    | .es => esMain
    | .modern => modernMain
    | .cjs => cjsOut
    | .umd => umdOut

/-- The default per-format filename template of src/index.js lines 268-284,
used when the manifest declares none. -/
def defaultTmpl : Format → String
  | .cjs => "x.js"
  | .es => "x.esm.js"
  | .umd => "x.umd.js"
  | .modern => "x.modern.js"

/-- JS code-unit-wise `<` on strings (the semantics of `a > b` in the
comparator on src/index.js line 88, with arguments flipped), restricted to
the ASCII strings that occur here. -/
def listLtChars : List Char → List Char → Bool
  | [], [] => false
  | [], _ :: _ => true
  | _ :: _, [] => false
  | a :: as, b :: bs => if a < b then true else if a = b then listLtChars as bs else false

/-- src/index.js line 88: `(a, b) => (a === 'cjs' ? -1 : a > b ? 1 : 0)`. -/
def jsFormatCmp (a b : Format) : Int :=
  if a = .cjs then -1 else if listLtChars b.str.data a.str.data then 1 else 0

/-- Insert `x` into `l`, keeping an existing element `y` before `x` exactly
when the comparator says `y` need not come after `x` (`cmp y x ≤ 0`). -/
def insertJsSorted (x : Format) : List Format → List Format
  | [] => [x]
  | y :: ys => if jsFormatCmp y x ≤ 0 then y :: insertJsSorted x ys else x :: y :: ys

/-- src/index.js lines 86-88: `formats.sort((a, b) => ...)`.
`Array.prototype.sort` is modelled as a comparator-driven stable insertion
sort (for the short format arrays that occur, V8 itself uses insertion
sort). -/
def sortFormats : List Format → List Format
  | [] => []
  | x :: xs => insertJsSorted x (sortFormats xs)

/-- src/index.js lines 103-118: the one-shot loop calls `bundle.write` for
`formats[0], formats[1], ...` of the sorted array sequentially, so the
sorted order is the write order. -/
def writeOrder (formats : List Format) : List Format := sortFormats formats

/-- src/index.js lines 303-308 and 470-475: the fixed built-in externals. -/
def builtinExternals : List String := ["dns", "fs", "path", "url"]

/-- One literal alternative `e` of the externals regex
`^(e1|...|en)($|/)` (src/index.js lines 529-533) matches `id` exactly when
`e` is a prefix of `id` followed by end-of-string or `/`.  Literal
specifiers are escaped with `escapeStringRegexp` before embedding, so they
match themselves. -/
def externalMatches (e id : String) : Bool :=
  e.data.isPrefixOf id.data &&
    (match id.data.drop e.data.length with
     | [] => true
     | c :: _ => c == '/')

/-- src/index.js lines 529-535: the compiled external predicate.  An empty
specifier list yields the constantly-false predicate `id => false`. -/
def externalTest (external : List String) (id : String) : Bool :=
  if external.isEmpty then false else external.any (fun e => externalMatches e id)

/-- The async-transform helper module force-included in the bundle
(src/index.js lines 572-574). -/
def asyncHelperId : String := "babel-plugin-transform-async-to-promises/helpers"

/-- src/index.js line 84: `options.multipleEntries = false;` (the
multiple-entry computation is commented out in this revision). -/
def multipleEntriesFlag : Bool := false

/-- src/index.js lines 571-582: the `external` callback of the assembled
configuration.  `aliasIds` are the find-keys of the parsed alias mappings,
`test` the compiled externals predicate. -/
def configExternalFn (aliasIds : List String) (test : String → Bool) (id : String) : Bool :=
  if id == asyncHelperId then false
  else if multipleEntriesFlag && id == "." then true
  else if aliasIds.contains id then false
  else test id

/-- src/index.js lines 419-427 and 620-628: the shebang transform plugin,
`code.replace(/^#![^\n]*/, bang => { shebang[options.name] = bang; })`.
The matched leading `#!` line is recorded in the process-wide `shebang`
cache under the build name.  The replacer callback returns `undefined`,
which JS `String.replace` stringifies, so the matched directive is replaced
by the literal text `undefined` in the transformed code.  The cache is an
association list where the newest binding for a key is found first. -/
def transformShebang (name : String) (cache : List (String × List Char))
    (code : List Char) : List Char × List (String × List Char) :=
  if ['#', '!'].isPrefixOf code then
    ("undefined".data ++ code.dropWhile (fun c => !(c == '\n')),
      (name, code.takeWhile (fun c => !(c == '\n'))) :: cache)
  else (code, cache)

/-- src/index.js lines 457-459: `get banner() { return shebang[options.name]; }`. -/
def bannerOf (name : String) (cache : List (String × List Char)) : Option (List Char) :=
  List.lookup name cache

/-- Modelled from the spec: the bundling engine is an external collaborator
(spec §1, §6); per spec §4.2 step 4 of the shebang contract and the
glossary, the configured banner is "relocated to the output file's very
first line", i.e. the emitted file is the banner line followed by the
transformed body. -/
def emitWithBanner (banner : Option (List Char)) (code : List Char) : List Char :=
  match banner with
  | none => code
  | some b => b ++ '\n' :: code

/-- The first line of a character buffer. -/
def firstLine (l : List Char) : List Char := l.takeWhile (fun c => !(c == '\n'))

/-- The interpreter directive of claim C4. -/
def shebangDirective : List Char := "#!/usr/bin/env node".data

/-- First character class of the identifier regex on src/index.js line 496:
`[a-z_$]`. -/
def isIdentStartChar (c : Char) : Bool :=
  ('a' ≤ c && c ≤ 'z') || c == '_' || c == '$'

/-- Rest character class of the same regex: `[a-z0-9_\-$]`. -/
def isIdentRestChar (c : Char) : Bool :=
  isIdentStartChar c || ('0' ≤ c && c ≤ '9') || c == '-'

/-- src/index.js line 496: `name.match(/^[a-z_$][a-z0-9_\-$]*$/)`. -/
def matchesIdentRegex (s : String) : Bool :=
  match s.data with
  | [] => false
  | c :: cs => isIdentStartChar c && cs.all isIdentRestChar

/-- Camel-casing of a specifier.  Modelled from the spec: the `camelcase`
library is an external collaborator; per spec §4.3 it derives "a
camel-cased global name", i.e. `-`/`_` separators are dropped and the
following character is upper-cased. -/
def camelChars : List Char → Bool → List Char
  | [], _ => []
  | c :: cs, up =>
    if c == '-' || c == '_' then camelChars cs true
    else (if up then c.toUpper else c) :: camelChars cs false

/-- `camelCase "lodash-es" = "lodashEs"`. -/
def camelCase (s : String) : String := ⟨camelChars s.data false⟩

/-- src/index.js lines 491-500: auto-derive the globals map by folding over
the external list; every specifier shaped like a bare identifier is mapped
to its camel-cased name.  The JS object is modelled as an association list
whose first matching binding is the current value of a key. -/
def deriveGlobals (external : List String) : List (String × String) :=
  external.foldl
    (fun globals name =>
      if matchesIdentRegex name then (name, camelCase name) :: globals else globals)
    []

/-- Key lookup in the modelled globals object. -/
def lookupGlobal (k : String) (globals : List (String × String)) : Option String :=
  List.lookup k globals

/-- Modelled from the spec: `parseMappingArgument` lives in
`lib/option-normalization`, which is not under `src/`; spec §6 specifies
the `globals`/`define` configuration surface as "comma-separated
`key=value` pairs". -/
def parseMappingArgument (s : String) : List (String × String) :=
  (splitOnChar ',' s.data).map
    (fun kv =>
      (⟨kv.takeWhile (fun c => !(c == '='))⟩,
        ⟨(kv.dropWhile (fun c => !(c == '='))).drop 1⟩))

/-- src/index.js lines 501-503:
`if (options.globals && options.globals !== 'none')
   globals = Object.assign(globals, parseMappingArgument(options.globals));`
`Object.assign`'s per-key override is modelled by prepending the parsed
pairs (lookup returns the first match). -/
def applyGlobals (auto : List (String × String)) (optGlobals : Option String) :
    List (String × String) :=
  match optGlobals with
  | none => auto
  | some s => if s == "" || s == "none" then auto else parseMappingArgument s ++ auto

/-- The JS value of the manifest `minify` (or legacy `mangle`) field:
absent, a string path, or an inline options object. -/
inductive MinifyField
  | absent
  | str (path : String)
  | obj

/-- JS truthiness of a `MinifyField` (an empty string path is falsy). -/
def minifyTruthy : MinifyField → Bool
  | .absent => false
  | .str s => !(s == "")
  | .obj => true

/-- src/index.js line 520:
`const rawMinifyValue = options.pkg.minify || options.pkg.mangle || {};`. -/
def rawMinifyValue (minify mangle : MinifyField) : MinifyField :=
  if minifyTruthy minify then minify
  else if minifyTruthy mangle then mangle
  else .obj

/-- src/index.js lines 522-525: the name-cache side-file path — the
string-valued `minify`/`mangle` field resolved against `cwd`, else the
default `mangle.json`. -/
def getNameCachePath (cwd : String) : MinifyField → String
  | .str path => resolvePath cwd path
  | _ => resolvePath cwd "mangle.json"

/-- src/index.js lines 517-554 (`loadNameCache` plus the
`if (nameCache === bareNameCache) nameCache = null;` step): reading and
parsing the side file inside `try { ... } catch (e) {}`.  A missing file
(read fails) or malformed contents (parse fails) leaves `nameCache` as the
original bare object, which line 554 turns into `null` (`none`); a
successful parse yields a fresh object that is never reference-equal to
the bare one, so it survives.  `parse` abstracts `JSON.parse`. -/
def loadNameCache {α : Type} (parse : String → Option α) (contents : Option String) :
    Option α :=
  match contents with
  | none => none
  | some s =>
    match parse s with
    | none => none
    | some v => some v

/-- The name cache handed to the terser plugin for a given filesystem state:
the side file at the computed path is read (`fsRead`, `none` = the read
throws) and parsed. -/
def nameCachePassedToTerser {α : Type} (parse : String → Option α)
    (fsRead : String → Option String) (cwd : String) (minify mangle : MinifyField) :
    Option α :=
  loadNameCache parse (fsRead (getNameCachePath cwd (rawMinifyValue minify mangle)))

/-- One watch step: the per-entry input/output configuration pair that
`doWatch` would bind a watcher to. -/
structure Step where
  inputEntry : String
  format : Format

/-- src/index.js lines 92-97: `let steps = [];` — the loop that would
populate `steps` with `createConfig(options, entry, format, ...)` results
is commented out in this revision, so `steps` is always the empty array,
for any entries and formats. -/
def microbundleSteps (entries : List String) (formats : List Format) : List Step := []

/-- src/index.js lines 36-38: `WATCH_OPTS = { exclude: 'node_modules/**' }`. -/
def watchExcludeGlob : String := "node_modules/**"

/-- src/index.js lines 135-167: `steps.reduce((acc, options) => {
acc[options.inputOptions.input] = watch(...); return acc; }, {})` — the
watcher set keyed by each step's input. -/
def doWatchWatchers (steps : List Step) : List (String × Step) :=
  steps.foldl (fun acc s => (s.inputEntry, s) :: acc) []

/-- The filesystem facts entry resolution consults (`isFile`, `isDir` from
`./utils` wrap `fs.stat`). -/
structure FS where
  isFile : String → Bool
  isDir : String → Bool

/-- The JS value of the manifest `source` field: absent, a string, or an
array of strings. -/
inductive SourceField
  | absent
  | str (s : String)
  | arr (files : List String)

/-- src/index.js lines 173-181 (`jsOrTs`): prefer an existing `.ts` file,
then an existing `.tsx` file, and otherwise fall back to `.js` whether or
not that file exists; resolve against `cwd`. -/
def jsOrTs (fs : FS) (cwd filename : String) : String :=
  if fs.isFile (resolvePath cwd (filename ++ ".ts")) then
    resolvePath cwd (filename ++ ".ts")
  else if fs.isFile (resolvePath cwd (filename ++ ".tsx")) then
    resolvePath cwd (filename ++ ".tsx")
  else resolvePath cwd (filename ++ ".js")

/-- src/index.js lines 194-196:
`(isDir(resolve(cwd,'src')) && jsOrTs(cwd,'src/index')) || jsOrTs(cwd,'index')`.
Both `jsOrTs` calls return a non-empty (truthy) path string, so this
expression is always truthy. -/
def srcOrRootIndex (fs : FS) (cwd : String) : String :=
  if fs.isDir (resolvePath cwd "src") then jsOrTs fs cwd "src/index"
  else jsOrTs fs cwd "index"

/-- src/index.js lines 186-198: the candidate list fed to glob expansion.
Because `srcOrRootIndex` is always truthy, the trailing `|| module` of the
source expression is unreachable: `moduleField` is never consulted.  Note
a `source` field holding an empty array is truthy in JS, so it is chosen
as an (empty) candidate list rather than skipped. -/
def getInputCandidates (fs : FS) (cwd : String) (entries : List String)
    (source : SourceField) (moduleField : Option String) : List String :=
  if !entries.isEmpty then entries
  else
    match source with
    | .str s => if s == "" then [srcOrRootIndex fs cwd] else [resolvePath cwd s]
    | .arr files => files.map (resolvePath cwd)
    | .absent => [srcOrRootIndex fs cwd]

/-- src/index.js lines 183-203 (`getInput`): glob-expand every candidate and
concatenate the results.  `globFn` abstracts `tiny-glob`'s sync matcher. -/
def getInput (fs : FS) (globFn : String → List String) (cwd : String)
    (entries : List String) (source : SourceField) (moduleField : Option String) :
    List String :=
  ((getInputCandidates fs cwd entries source moduleField).map globFn).flatten

/-- Keep the first occurrence of every element, dropping later duplicates
(JS `arr.filter((item, i, arr) => arr.indexOf(item) === i)`). -/
def dedupAux : List String → List String → List String
  | _, [] => []
  | seen, x :: xs =>
    if seen.contains x then dedupAux seen xs else x :: dedupAux (x :: seen) xs

/-- Deduplicate preserving first-seen order. -/
def dedupFirst (l : List String) : List String := dedupAux [] l

/-- src/index.js lines 228-239 (`getEntries`): resolve each input against
`cwd`, rewrite directory entries to their `index.js`, and deduplicate. -/
def getEntries (fs : FS) (cwd : String) (input : List String) : List String :=
  dedupFirst
    (input.map (fun file =>
      let f := resolvePath cwd file
      if fs.isDir f then resolvePath f "index.js" else f))

/-- Modelled from the claim's words (C5): the first of `base ++ ".ts"`,
`base ++ ".tsx"`, `base ++ ".js"` that exists as a file, if any. -/
def firstExistingExt (fs : FS) (cwd base : String) : Option String :=
  if fs.isFile (resolvePath cwd (base ++ ".ts")) then
    some (resolvePath cwd (base ++ ".ts"))
  else if fs.isFile (resolvePath cwd (base ++ ".tsx")) then
    some (resolvePath cwd (base ++ ".tsx"))
  else if fs.isFile (resolvePath cwd (base ++ ".js")) then
    some (resolvePath cwd (base ++ ".js"))
  else none

/-- Modelled from the claim's words (C5): entry resolution as the claim
states it — the first non-empty candidate of: the explicit entries; the
manifest `source` field(s); an existing `src/index` file with extension
preference `.ts`, `.tsx`, `.js`; an existing root `index` file with the
same preference; the manifest `module` field — expanded through glob
matching. -/
def getInputClaim (fs : FS) (globFn : String → List String) (cwd : String)
    (entries : List String) (source : SourceField) (moduleField : Option String) :
    List String :=
  let sourceCandidate : List String :=
    match source with
    | .absent => []
    | .str s => if s == "" then [] else [resolvePath cwd s]
    | .arr files => files.map (resolvePath cwd)
  let srcIndexCandidate := (firstExistingExt fs cwd "src/index").toList
  let rootIndexCandidate := (firstExistingExt fs cwd "index").toList
  let moduleCandidate := moduleField.toList
  let chosen :=
    (([entries, sourceCandidate, srcIndexCandidate, rootIndexCandidate,
        moduleCandidate].find? (fun c => !c.isEmpty)).getD [])
  (chosen.map globFn).flatten

/-- JS truthiness of the `source` field value. -/
def sourceTruthy : SourceField → Bool
  | .absent => false
  | .str s => !(s == "")
  | .arr _ => true

/-- The `source` field's file list resolved against `cwd`. -/
def sourceResolved (cwd : String) : SourceField → List String
  | .str s => [resolvePath cwd s]
  | .arr files => files.map (resolvePath cwd)
  | .absent => []

/-- The amended C5 cascade: the first JS-truthy candidate of the explicit
entries, the `source` field value, and the unconditional `src`-or-root
index path (which is always produced, so the manifest `module` field is
never consulted), expanded through glob matching. -/
def getInputAmended (fs : FS) (globFn : String → List String) (cwd : String)
    (entries : List String) (source : SourceField) : List String :=
  let candidate : List String :=
    if !entries.isEmpty then entries
    else if sourceTruthy source then sourceResolved cwd source
    else [srcOrRootIndex fs cwd]
  ((candidate.map globFn).flatten : List String)

/-- The concrete filesystem of the C5 counterexample: no `src` directory,
no `index.{ts,tsx,js}` anywhere, and a `lib/mod.js` file the manifest's
`module` field names. -/
def fsC5 : FS :=
  { isFile := fun p => p == "/p/lib/mod.js" || p == "lib/mod.js",
    isDir := fun _ => false }

/-- Plain-filename glob matching over `fsC5`: a pattern without magic
characters expands to itself exactly when the file exists. -/
def globC5 : String → List String := fun p => if fsC5.isFile p then [p] else []

/-! ## Helper lemmas -/

theorem strData_append (a b : String) : (a ++ b).data = a.data ++ b.data := rfl

theorem strStartsWith_slash_append (m s : String) (h : strStartsWith "/" m = true) :
    strStartsWith "/" (m ++ s) = true := by
  unfold strStartsWith at h ⊢
  rw [List.isPrefixOf_iff_prefix] at h ⊢
  rw [strData_append]
  exact h.trans (List.prefix_append m.data s.data)

theorem replaceName_abs (t m : String) (hm : strStartsWith "/" m = true) :
    replaceName t m = m ++ stripLeadingName (basename t) := by
  unfold replaceName resolvePath
  rw [if_pos (strStartsWith_slash_append m _ hm)]

theorem getMain_default (output entry : String) (f : Format) :
    getMain true output {} entry f = replaceName (defaultTmpl f) (mainNoExtOf output entry) := by
  cases f <;> rfl

theorem takeWhile_append_of_all {p : Char → Bool} {l₁ : List Char} (l₂ : List Char)
    (h : l₁.all p = true) :
    (l₁ ++ l₂).takeWhile p = l₁ ++ l₂.takeWhile p := by
  induction l₁ with
  | nil => simp
  | cons c cs ih =>
    rw [List.all_cons, Bool.and_eq_true] at h
    rw [List.cons_append, List.takeWhile_cons, if_pos h.1, ih h.2, List.cons_append]

theorem dropWhile_append_of_all {p : Char → Bool} {l₁ : List Char} (l₂ : List Char)
    (h : l₁.all p = true) :
    (l₁ ++ l₂).dropWhile p = l₂.dropWhile p := by
  induction l₁ with
  | nil => simp
  | cons c cs ih =>
    rw [List.all_cons, Bool.and_eq_true] at h
    rw [List.cons_append, List.dropWhile_cons, if_pos h.1, ih h.2]

theorem infix_append_drop_left {pat b : List Char} {c : Char} (hpat : pat.head? = some c) :
    ∀ a : List Char, c ∉ a → pat <:+: (a ++ b) → pat <:+: b := by
  intro a
  induction a with
  | nil =>
    intro _ h
    simpa using h
  | cons x a' ih =>
    intro hc h
    obtain ⟨s, t, hst⟩ := h
    cases s with
    | nil =>
      cases pat with
      | nil => simp at hpat
      | cons p0 pat' =>
        have hp0 : p0 = c := by simpa using hpat
        simp only [List.nil_append, List.cons_append] at hst
        injection hst with h1 h2
        subst hp0
        exact absurd (by rw [h1]; exact List.mem_cons_self x a') hc
    | cons y s' =>
      simp only [List.cons_append] at hst
      injection hst with h1 h2
      exact ih (fun hm => hc (List.mem_cons_of_mem x hm)) ⟨s', t, h2⟩

theorem jsFormatCmp_cjs_left (b : Format) : jsFormatCmp Format.cjs b = -1 := rfl

theorem insertJsSorted_cjs_head (l : List Format) :
    (insertJsSorted Format.cjs l).head? = some Format.cjs := by
  cases l with
  | nil => rfl
  | cons y ys =>
    cases y <;> simp only [insertJsSorted] <;>
      first
      | (rw [if_pos (by decide)]; rfl)
      | (rw [if_neg (by decide)]; rfl)

/-! ## Claim C1 -/

/-- Claim C1, counterexample.  The claim fails as stated: (a) the manifest
value `"cjs:main": "x.esm.js"` makes the `cjs` and `es` formats of the same
entry collide on one absolute output path, because only the template's
dotted suffix survives `replaceName`; (b) even with default templates, two
distinct entries sharing a base name collide on the same path for one
format, because `getMain` substitutes only the entry's base name into the
output directory. -/
theorem C1_counterexample :
    (getMain true "/p/dist/pkg.js" { cjsMain := some "x.esm.js" } "/p/src/index.js" Format.es =
        getMain true "/p/dist/pkg.js" { cjsMain := some "x.esm.js" } "/p/src/index.js" Format.cjs
      ∧ Format.es ≠ Format.cjs)
    ∧ (getMain true "/p/dist/pkg.js" {} "/p/a/foo.js" Format.cjs =
        getMain true "/p/dist/pkg.js" {} "/p/b/foo.js" Format.cjs
      ∧ ("/p/a/foo.js" : String) ≠ "/p/b/foo.js") := by
  decide

/-- Claim C1 (amended): when the manifest declares none of the per-format
filename templates (`module`, `jsnext:main`, `syntax.esmodules`,
`esmodule`, `cjs:main`, `umd:main`), so every format uses its default
template (`x.js`, `x.esm.js`, `x.umd.js`, `x.modern.js`), `getMain`
assigns two distinct formats of one fixed entry two distinct absolute
output paths, for any entry whose computed base output path is absolute. -/
theorem C1_default_formats_distinct (output entry : String) (f g : Format) (hne : f ≠ g)
    (habs : strStartsWith "/" (mainNoExtOf output entry) = true) :
    getMain true output {} entry f ≠ getMain true output {} entry g := by
  intro hcoll
  rw [getMain_default, getMain_default, replaceName_abs _ _ habs,
    replaceName_abs _ _ habs] at hcoll
  have hdata := congrArg String.data hcoll
  rw [strData_append, strData_append] at hdata
  have hsuf := List.append_cancel_left hdata
  cases f <;> cases g <;>
    first
    | exact hne rfl
    | exact absurd hsuf (by decide)

/-- Witness for `C1_default_formats_distinct` at a concrete input. -/
theorem C1_default_formats_distinct_witness :
    (Format.es ≠ Format.cjs
      ∧ strStartsWith "/" (mainNoExtOf "/p/dist/pkg.js" "/p/src/index.js") = true)
    ∧ getMain true "/p/dist/pkg.js" {} "/p/src/index.js" Format.es ≠
        getMain true "/p/dist/pkg.js" {} "/p/src/index.js" Format.cjs :=
  ⟨⟨by decide, by decide⟩,
    C1_default_formats_distinct "/p/dist/pkg.js" "/p/src/index.js" Format.es Format.cjs
      (by decide) (by decide)⟩

/-! ## Claim C2 -/

/-- Claim C2: whenever the requested format list contains `cjs`, the sorted
write order of the one-shot build starts with `cjs`, so the `cjs` output is
written before the output of every other requested format, for every order
in which the caller specified the formats. -/
theorem C2_cjs_written_first (formats : List Format) (h : Format.cjs ∈ formats) :
    (writeOrder formats).head? = some Format.cjs := by
  unfold writeOrder
  induction formats with
  | nil => cases h
  | cons x xs ih =>
    by_cases hx : x = Format.cjs
    · subst hx
      simp only [sortFormats]
      exact insertJsSorted_cjs_head _
    · have hmem : Format.cjs ∈ xs := by
        cases h with
        | head => exact absurd rfl hx
        | tail _ h2 => exact h2
      have ih2 := ih hmem
      cases hs : sortFormats xs with
      | nil => rw [hs] at ih2; simp at ih2
      | cons z t =>
        rw [hs] at ih2
        have hz : z = Format.cjs := by simpa using ih2
        subst hz
        simp only [sortFormats, hs, insertJsSorted]
        rw [if_pos (show jsFormatCmp Format.cjs x ≤ 0 by rw [jsFormatCmp_cjs_left]; decide)]
        rfl

/-- Witness for `C2_cjs_written_first` at a concrete format list. -/
theorem C2_cjs_written_first_witness :
    Format.cjs ∈ [Format.es, Format.modern, Format.cjs, Format.umd]
    ∧ (writeOrder [Format.es, Format.modern, Format.cjs, Format.umd]).head? =
        some Format.cjs :=
  ⟨by decide, C2_cjs_written_first [Format.es, Format.modern, Format.cjs, Format.umd] (by decide)⟩

/-! ## Claim C3 -/

/-- Claim C3: the external predicate compiled from the single literal
specifier list `["foo"]` returns true for `"foo"` and `"foo/bar"` and false
for `"foobar"` and `"food"`. -/
theorem C3_external_predicate_foo :
    externalTest ["foo"] "foo" = true
    ∧ externalTest ["foo"] "foo/bar" = true
    ∧ externalTest ["foo"] "foobar" = false
    ∧ externalTest ["foo"] "food" = false := by
  decide

/-! ## Claim C6 -/

/-- Claim C6: with a truthy manifest `module` field, the `es`-format output
plan uses `module` as the filename template exactly when its value does not
contain `src/`; a `src/`-matching value is skipped in favour of
`jsnext:main` or the default template `x.esm.js`. -/
theorem C6_module_src_exclusion (output entry : String) (pkg : Pkg) (m : String)
    (hm : pkg.module = some m) (hne : m ≠ "") :
    getMain true output pkg entry Format.es =
      (if hasSubstr "src/" m then
        replaceName (orTruthy pkg.jsnextMain "x.esm.js") (mainNoExtOf output entry)
      else replaceName m (mainNoExtOf output entry)) := by
  have hb : (m == "") = false := by simp [hne]
  simp only [getMain, hm, strTruthy, Option.getD, hb]
  cases hs : hasSubstr "src/" m <;> simp [hs]

/-- Witness for `C6_module_src_exclusion` at a concrete manifest. -/
theorem C6_module_src_exclusion_witness :
    (({ module := some "dist/foo.mjs" } : Pkg).module = some "dist/foo.mjs"
      ∧ ("dist/foo.mjs" : String) ≠ "")
    ∧ getMain true "/p/dist/pkg.js" { module := some "dist/foo.mjs" } "/p/src/index.js"
        Format.es =
      (if hasSubstr "src/" "dist/foo.mjs" then
        replaceName (orTruthy ({ module := some "dist/foo.mjs" } : Pkg).jsnextMain "x.esm.js")
          (mainNoExtOf "/p/dist/pkg.js" "/p/src/index.js")
      else replaceName "dist/foo.mjs" (mainNoExtOf "/p/dist/pkg.js" "/p/src/index.js")) :=
  ⟨⟨rfl, by decide⟩,
    C6_module_src_exclusion "/p/dist/pkg.js" "/p/src/index.js" { module := some "dist/foo.mjs" }
      "dist/foo.mjs" rfl (by decide)⟩

/-! ## Claim C10 -/

/-- Claim C10: every module id among the alias find-keys is classified as
not external by the assembled configuration's external callback, whatever
the compiled externals predicate (built-ins, dependencies, user patterns)
would say about it: the alias check precedes the external test. -/
theorem C10_alias_ids_not_external (aliasIds : List String) (test : String → Bool)
    (id : String) (h : id ∈ aliasIds) :
    configExternalFn aliasIds test id = false := by
  have hc : aliasIds.contains id = true := List.elem_iff.mpr h
  simp [configExternalFn, multipleEntriesFlag, hc, h, ite_self]

/-- Witness for `C10_alias_ids_not_external`: the built-in external `fs`
aliased away is still bundled. -/
theorem C10_alias_ids_not_external_witness :
    "fs" ∈ ["fs"] ∧ configExternalFn ["fs"] (fun _ => true) "fs" = false :=
  ⟨by decide, C10_alias_ids_not_external ["fs"] (fun _ => true) "fs" (by decide)⟩

/-! ## Claim C4 -/

/-- Claim C4, counterexample.  The transform replaces only the leading
`#!` match (`/^#![^\n]*/` is anchored and `replace` substitutes the first
match), so a copy of the directive embedded in the body — here a source
whose second line is again `#!/usr/bin/env node` — survives into the
transformed body: the claim's "remaining compiled body contains no
embedded copy of the directive" is false of the code as stated. -/
theorem C4_counterexample :
    (transformShebang "pkg" [] (shebangDirective ++ '\n' :: shebangDirective)).1
        = "undefined".data ++ '\n' :: shebangDirective
    ∧ shebangDirective <:+:
        (transformShebang "pkg" [] (shebangDirective ++ '\n' :: shebangDirective)).1 := by
  decide

/-- Claim C4 (amended): an entry whose source begins with the line
`#!/usr/bin/env node` produces, through the shebang-stripping transform,
the cached banner, and the engine's banner injection, an output whose
first line is exactly that directive; and provided the remainder of the
source contains no occurrence of the directive itself, the transformed
body contains no embedded copy of it (the transform removes only the
leading match, so a copy embedded in the body survives). -/
theorem C4_shebang_roundtrip_amended (name : String) (cache : List (String × List Char))
    (rest : List Char) (h : ¬ shebangDirective <:+: rest) :
    firstLine
        (emitWithBanner
          (bannerOf name (transformShebang name cache (shebangDirective ++ '\n' :: rest)).2)
          (transformShebang name cache (shebangDirective ++ '\n' :: rest)).1)
      = shebangDirective
    ∧ ¬ shebangDirective <:+:
        (transformShebang name cache (shebangDirective ++ '\n' :: rest)).1 := by
  have hall : shebangDirective.all (fun c => !(c == '\n')) = true := by decide
  have hpre : ['#', '!'].isPrefixOf (shebangDirective ++ '\n' :: rest) = true := rfl
  have htake : (shebangDirective ++ '\n' :: rest).takeWhile (fun c => !(c == '\n'))
      = shebangDirective := by
    rw [takeWhile_append_of_all _ hall]
    simp [List.takeWhile_cons]
  have hdrop : (shebangDirective ++ '\n' :: rest).dropWhile (fun c => !(c == '\n'))
      = '\n' :: rest := by
    rw [dropWhile_append_of_all _ hall]
    simp [List.dropWhile_cons]
  have htr : transformShebang name cache (shebangDirective ++ '\n' :: rest)
      = ("undefined".data ++ '\n' :: rest, (name, shebangDirective) :: cache) := by
    unfold transformShebang
    rw [if_pos hpre, htake, hdrop]
  rw [htr]
  constructor
  · have hb : bannerOf name ((name, shebangDirective) :: cache) = some shebangDirective := by
      simp [bannerOf, List.lookup]
    rw [hb]
    unfold emitWithBanner firstLine
    rw [takeWhile_append_of_all _ hall]
    simp [List.takeWhile_cons]
  · intro hinf
    have hre : "undefined".data ++ '\n' :: rest = ("undefined".data ++ ['\n']) ++ rest := by
      simp
    rw [hre] at hinf
    exact h (@infix_append_drop_left shebangDirective rest '#' (by decide)
      ("undefined".data ++ ['\n']) (by decide) hinf)

/-- Witness for `C4_shebang_roundtrip_amended` at a concrete entry body. -/
theorem C4_shebang_roundtrip_amended_witness :
    ¬ shebangDirective <:+: "console.log(1)".data
    ∧ (firstLine
        (emitWithBanner
          (bannerOf "pkg"
            (transformShebang "pkg" []
              (shebangDirective ++ '\n' :: "console.log(1)".data)).2)
          (transformShebang "pkg" []
            (shebangDirective ++ '\n' :: "console.log(1)".data)).1)
      = shebangDirective
    ∧ ¬ shebangDirective <:+:
        (transformShebang "pkg" []
          (shebangDirective ++ '\n' :: "console.log(1)".data)).1) :=
  ⟨by decide, C4_shebang_roundtrip_amended "pkg" [] "console.log(1)".data (by decide)⟩

/-! ## Claim C5 -/

/-- Claim C5, counterexample.  On a project with no `src` directory, no
`index.{ts,tsx,js}` file anywhere, and a manifest `module` field naming an
existing `lib/mod.js`, the claimed cascade would fall through to `module`
and resolve `["lib/mod.js"]`, but `getInput` produces the unconditional
root `index.js` candidate (which globs to nothing) and returns `[]`: the
`module` fallback of the claim is unreachable in the code. -/
theorem C5_counterexample :
    getInput fsC5 globC5 "/p" [] SourceField.absent (some "lib/mod.js") = []
    ∧ getInputClaim fsC5 globC5 "/p" [] SourceField.absent (some "lib/mod.js")
        = ["lib/mod.js"]
    ∧ ([] : List String) ≠ ["lib/mod.js"] := by
  decide

/-- Claim C5 (amended): entry resolution returns the first JS-truthy
candidate of: the explicit entries; the manifest `source` field value (an
empty-array value is truthy and chosen as an empty candidate); and the
`src/index`-or-root-`index` path, where only the existence of the `src`
directory and of the `.ts`/`.tsx` variants is checked and the `.js` path is
produced whether or not it exists — so this candidate is always present and
the manifest `module` field is never consulted.  The chosen candidate is
expanded through glob matching. -/
theorem C5_getInput_amended (fs : FS) (globFn : String → List String) (cwd : String)
    (entries : List String) (source : SourceField) (moduleField : Option String) :
    getInput fs globFn cwd entries source moduleField =
      getInputAmended fs globFn cwd entries source := by
  unfold getInput getInputAmended getInputCandidates
  cases he : entries.isEmpty with
  | true =>
    cases source with
    | absent => simp [he, sourceTruthy, sourceResolved]
    | str s => cases hs : (s == "") <;> simp [he, hs, sourceTruthy, sourceResolved]
    | arr files => simp [he, sourceTruthy, sourceResolved]
  | false => simp [he]

/-! ## Claim C7 -/

/-- Claim C7: globals auto-derivation maps the external specifier
`lodash-es` to the global name `lodashEs`, and an explicit user globals
mapping for the same key fully replaces the auto-derived value. -/
theorem C7_globals_derivation :
    lookupGlobal "lodash-es"
        (applyGlobals (deriveGlobals (builtinExternals ++ ["lodash-es"])) none)
      = some "lodashEs"
    ∧ lookupGlobal "lodash-es"
        (applyGlobals (deriveGlobals (builtinExternals ++ ["lodash-es"]))
          (some "lodash-es=_"))
      = some "_" := by
  decide

/-! ## Claim C8 -/

/-- Claim C8 (code bug): because the step-construction loop is commented
out, `steps` is always empty, so watch mode's returned watcher set is empty
for every invocation — never "one persistent watcher per resolved entry"
as the spec states. -/
theorem C8_watch_watcher_set_empty (entries : List String) (formats : List Format) :
    doWatchWatchers (microbundleSteps entries formats) = [] := rfl

/-! ## Claim C9 -/

/-- Claim C9: when the name-cache side file at the computed path (the
string-valued `minify`/`mangle` manifest field, or the default
`mangle.json`) is missing (`fsRead` returns `none`) or holds malformed
JSON (`parse` returns `none`), configuration construction completes (the
model is a total function) and the name cache passed to the minifier is
`null` (`none`). -/
theorem C9_name_cache_failure_null {α : Type} (parse : String → Option α)
    (fsRead : String → Option String) (cwd : String) (minify mangle : MinifyField)
    (h : ∀ s, fsRead (getNameCachePath cwd (rawMinifyValue minify mangle)) = some s →
      parse s = none) :
    nameCachePassedToTerser parse fsRead cwd minify mangle = none := by
  unfold nameCachePassedToTerser loadNameCache
  cases hr : fsRead (getNameCachePath cwd (rawMinifyValue minify mangle)) with
  | none => rfl
  | some s =>
    show (match parse s with
      | none => (none : Option α)
      | some v => some v) = none
    rw [h s hr]

/-- Witness for `C9_name_cache_failure_null`: a missing side file. -/
theorem C9_name_cache_failure_null_witness :
    (∀ s : String,
      (fun _ : String => (none : Option String))
          (getNameCachePath "/p" (rawMinifyValue MinifyField.absent MinifyField.absent))
        = some s →
      (fun _ : String => (none : Option Nat)) s = none)
    ∧ nameCachePassedToTerser (fun _ : String => (none : Option Nat))
        (fun _ : String => (none : Option String)) "/p" MinifyField.absent MinifyField.absent
      = none :=
  ⟨fun _ hs => Option.noConfusion hs,
    C9_name_cache_failure_null _ _ _ _ _ (fun _ hs => Option.noConfusion hs)⟩

end Microbundle
